import Mathlib

/-!
# Weenix core: shallow embedding and verification

This file embeds the core of the Weenix educational kernel
(`kernel/proc/sched.c`, `kernel/vm/brk.c`, `kernel/vm/pagefault.c`,
`kernel/drivers/tty/tty.c`) as executable Lean definitions and proves
properties of the embedded code.

Machine integers are modelled as `Nat` (all the quantities involved are
unsigned and the code keeps them well inside 32 bits); C pointers that can
be NULL are modelled as `Option` or as a `Nat` identifier with `0` playing
the role of NULL; external collaborators (the memory-object layer, the
page-table hardware layer, the line discipline, the tty driver) are
modelled as oracle functions supplied as parameters, and the calls the
code makes into them are recorded in an event trace.  `KASSERT` failures
and `panic` are modelled as a distinguished divergent outcome (`panic` in
C halts the kernel and never returns).
-/

namespace Weenix

/-! ## Constants from `mm/page.h`, `mm/mman.h`, `errno.h`, `vm/pagefault.h`,
`mm/pagetable.h`.  These headers are not part of the four source files; the
values are the standard Weenix/x86 ones, and no theorem below depends on
the particular numeric values, only on the bits being distinct. -/

def PAGE_SHIFT : Nat := 12

def PAGE_SIZE : Nat := 4096

/-- `ADDR_TO_PN(x)`: virtual address to virtual page number. -/
def ADDR_TO_PN (addr : Nat) : Nat := addr / PAGE_SIZE

/-- `PAGE_ALIGN_DOWN(x)`. -/
def PAGE_ALIGN_DOWN (addr : Nat) : Nat := addr / PAGE_SIZE * PAGE_SIZE

/-- `PN_TO_ADDR(pn)`. -/
def PN_TO_ADDR (pn : Nat) : Nat := pn * PAGE_SIZE

/-- Modelled from the spec: the upper bound of userland memory
(`USER_MEM_HIGH`, from `mm/mman.h`, not among the given sources). -/
def USER_MEM_HIGH : Nat := 0xc0000000

def EFAULT : Int := 14

def ENOMEM : Int := 12

def EINTR : Int := 4

def PROT_READ : Nat := 1

def PROT_WRITE : Nat := 2

def PROT_EXEC : Nat := 4

/-- Modelled from the spec: fault-cause bitmask, `vm/pagefault.h` is not
among the given sources.  Bit 0 = write-fault, bit 1 = user mode,
bit 2 = exec-fault. -/
def FAULT_WRITE : Nat := 1

def FAULT_USER : Nat := 2

def FAULT_EXEC : Nat := 4

def PD_PRESENT : Nat := 1

def PD_WRITE : Nat := 2

def PD_USER : Nat := 4

def PT_PRESENT : Nat := 1

def PT_WRITE : Nat := 2

def PT_USER : Nat := 4

/-! ## Address-space map (`vm/vmmap.h`) -/

/-- A `vmarea_t`: a half-open page range `[vma_start, vma_end)` with
protection bits, an offset into its backing memory object, and the
backing object itself (a `Nat` identifier, `0` = NULL pointer). -/
structure VMArea where
  vma_start : Nat
  vma_end : Nat
  vma_off : Nat
  vma_prot : Nat
  vma_obj : Nat
  deriving Repr, DecidableEq

/-- A `vmmap_t`: the ordered collection of vmareas of a process. -/
abbrev Vmmap := List VMArea

/-- `vmmap_lookup(map, vfn)`: the first vmarea whose page range contains
`vfn`, or none (NULL). -/
def vmmap_lookup (m : Vmmap) (vfn : Nat) : Option VMArea :=
  m.find? (fun a => a.vma_start ≤ vfn && vfn < a.vma_end)

/-- `vmmap_is_range_empty(map, startvfn, npages)`: no vmarea intersects the
page range `[startvfn, startvfn + npages)`. -/
def vmmap_is_range_empty (m : Vmmap) (startvfn npages : Nat) : Bool :=
  m.all (fun a => a.vma_end ≤ startvfn || startvfn + npages ≤ a.vma_start)

/-! ## Page-fault handler (`handle_pagefault` in `vm/pagefault.c`) -/

/-- A `pframe_t` as seen by the fault handler: its kernel virtual address
(`pf_addr`, `0` = NULL) and the memory object it belongs to (`pf_obj`). -/
structure Frame where
  pf_addr : Nat
  pf_obj : Nat
  deriving Repr, DecidableEq

/-- The external collaborators `handle_pagefault` calls into:
`pframe_lookup` (returns an errno and, on success, the frame),
`pframe_dirty`, `pt_map` and `pt_virt_to_phys`.  They are opaque to the
fault handler; we model them as an oracle. -/
structure MMOracle where
  pframe_lookup : Nat → Nat → Bool → Int × Frame
  pframe_dirty : Frame → Int
  pt_map : Nat → Nat → Nat → Nat → Int
  pt_virt_to_phys : Nat → Nat

/-- One call the fault handler makes into a collaborator. -/
inductive Event where
  | lookup (obj index : Nat) (forwrite : Bool)
  | dirty (addr obj : Nat)
  | ptmap (vaddr paddr pdflags ptflags : Nat)
  deriving Repr, DecidableEq

/-- How `handle_pagefault` ends: `do_exit(status)` (it never returns a
value to its caller), normal return after installing the mapping, or a
`KASSERT` failure. -/
inductive PFOutcome where
  | exited (status : Int)
  | ok
  | panic
  deriving Repr, DecidableEq

/-- `handle_pagefault(vaddr, cause)` from `vm/pagefault.c`, embedded over
the current process's vmmap and the memory-management oracle.  Returns the
outcome together with the trace of collaborator calls made, in order.
The C nested `if ((cause & FAULT_WRITE) == 0) { if ((prot & PROT_READ) == 0)
do_exit; }` is written as a single conjunction guard; control flow is
identical. -/
def handle_pagefault (o : MMOracle) (m : Vmmap) (vaddr cause : Nat) :
    PFOutcome × List Event :=
  let pagenum := ADDR_TO_PN vaddr
  match vmmap_lookup m pagenum with
  | none => (.exited EFAULT, [])
  | some area =>
    if cause &&& FAULT_WRITE = 0 ∧ area.vma_prot &&& PROT_READ = 0 then
      (.exited EFAULT, [])
    else if cause &&& FAULT_WRITE ≠ 0 ∧ area.vma_prot &&& PROT_WRITE = 0 then
      (.exited EFAULT, [])
    else
      let forwrite : Bool := cause &&& FAULT_WRITE ≠ 0
      let pdflags := PD_PRESENT ||| PD_USER ||| (if forwrite then PD_WRITE else 0)
      let ptflags := PT_PRESENT ||| PT_USER ||| (if forwrite then PT_WRITE else 0)
      if cause &&& FAULT_EXEC ≠ 0 ∧ area.vma_prot &&& PROT_EXEC = 0 then
        (.exited EFAULT, [])
      else if area.vma_obj = 0 then
        (.panic, [])  -- KASSERT(area->vma_obj)
      else
        let index := pagenum - area.vma_start + area.vma_off
        let r := o.pframe_lookup area.vma_obj index forwrite
        let err := r.1
        let pf := r.2
        let tr := [Event.lookup area.vma_obj index forwrite]
        if err < 0 then
          (.exited EFAULT, tr)
        else if err ≠ 0 then
          (.panic, tr)  -- KASSERT(err == 0)
        else if pf.pf_addr = 0 then
          (.panic, tr)  -- KASSERT(pf); KASSERT(pf->pf_addr)
        else
          let afterDirty :=
            if forwrite then
              if area.vma_obj ≠ pf.pf_obj then
                none  -- KASSERT(area->vma_obj == pf->pf_obj)
              else
                let derr := o.pframe_dirty pf
                if derr ≠ 0 then none  -- KASSERT(err == 0)
                else some (tr ++ [Event.dirty pf.pf_addr pf.pf_obj])
            else some tr
          match afterDirty with
          | none => (.panic, tr)
          | some tr1 =>
            if PAGE_ALIGN_DOWN vaddr ≠ PN_TO_ADDR pagenum then
              (.panic, tr1)  -- KASSERT(PAGE_ALIGN_DOWN(vaddr) == PN_TO_ADDR(pagenum))
            else
              let paddr := o.pt_virt_to_phys pf.pf_addr
              let merr := o.pt_map (PN_TO_ADDR pagenum) paddr pdflags ptflags
              let tr2 := tr1 ++ [Event.ptmap (PN_TO_ADDR pagenum) paddr pdflags ptflags]
              if merr ≠ 0 then (.panic, tr2)  -- KASSERT(err == 0)
              else (.ok, tr2)

/-- The permission check of step 2 of the fault algorithm fails: the area
lacks READ on a non-write fault, WRITE on a write fault, or EXEC on an
exec fault. -/
def permission_missing (area : VMArea) (cause : Nat) : Prop :=
  (cause &&& FAULT_WRITE = 0 ∧ area.vma_prot &&& PROT_READ = 0) ∨
  (cause &&& FAULT_WRITE ≠ 0 ∧ area.vma_prot &&& PROT_WRITE = 0) ∨
  (cause &&& FAULT_EXEC ≠ 0 ∧ area.vma_prot &&& PROT_EXEC = 0)

instance (area : VMArea) (cause : Nat) : Decidable (permission_missing area cause) := by
  unfold permission_missing; infer_instance

/-! ## Heap-break manager (`do_brk` in `vm/brk.c`) -/

/-- The fields of `proc_t` that `do_brk` touches. -/
structure Proc where
  p_start_brk : Nat
  p_brk : Nat
  p_vmmap : Vmmap
  deriving Repr, DecidableEq

/-- `vmmap_lookup`, but returning the position of the found area in the
map, so that the in-place mutation `area->vma_end = ...` of the C code can
be expressed as a list update. -/
def vmmap_lookup_idx (m : Vmmap) (vfn : Nat) : Option Nat :=
  m.findIdx? (fun a => a.vma_start ≤ vfn && vfn < a.vma_end)

/-- Outcome of `do_brk(addr, &ret)`: `ok ret p'` is `return 0` with
`*ret = ret` and `p'` the mutated process; `err code p` is `return code`
(the process untouched); `panic` is the `panic("panic for now\n")` call,
which never returns (the `return -1` after it is dead code). -/
inductive BrkResult where
  | ok (ret : Nat) (p : Proc)
  | err (code : Int) (p : Proc)
  | panic
  deriving Repr, DecidableEq

/-- `do_brk(addr, ret)` from `vm/brk.c`.  `addr = 0` models the NULL
pointer. -/
def do_brk (p : Proc) (addr : Nat) : BrkResult :=
  if addr = 0 then
    .ok p.p_brk p
  else
    let start_brk := p.p_start_brk
    let brk := p.p_brk
    let vaddr := addr
    let lopage := ADDR_TO_PN (PAGE_ALIGN_DOWN start_brk)
    if vaddr < start_brk then
      .err (-ENOMEM) p
    else if USER_MEM_HIGH ≤ vaddr then
      .err (-ENOMEM) p
    else if vaddr = brk then
      -- KASSERT(curproc->p_brk == addr) holds by the branch condition
      .ok addr { p with p_brk := addr }
    else if ¬ start_brk ≤ brk then
      .panic  -- KASSERT(start_brk <= brk)
    else
      match vmmap_lookup_idx p.p_vmmap lopage with
      | none => .panic  -- panic("panic for now\n"); never returns
      | some i =>
        match p.p_vmmap[i]? with
        | none => .panic  -- unreachable: findIdx? returns an in-range index
        | some area =>
          let hiaddr := vaddr - 1
          let hipage := ADDR_TO_PN hiaddr
          if hipage < area.vma_end then
            .ok addr { p with
              p_brk := addr,
              p_vmmap := p.p_vmmap.set i { area with vma_end := hipage + 1 } }
          else if vmmap_is_range_empty p.p_vmmap area.vma_end
                     (hipage - area.vma_end + 1) then
            .ok addr { p with
              p_brk := addr,
              p_vmmap := p.p_vmmap.set i { area with vma_end := hipage + 1 } }
          else
            .err (-ENOMEM) p

/-! ## Scheduler (`proc/sched.c`)

Thread ids and queue ids are indices into the `threads` and `queues`
lists of a `SchedState`.  The run queue `kt_runq` is the queue with id
`runqId`.  The IPL raise/restore bracketing of the C code has no
observable effect on the queue state in this sequential model and is not
represented.  `KASSERT` failure, a NULL-pointer dereference and a
non-terminating loop are all modelled as `none`. -/

/-- `kt_state` values. -/
inductive TState where
  | noState
  | run
  | sleep
  | sleepCancellable
  | exited
  deriving Repr, DecidableEq

/-- The fields of `kthread_t` that `sched.c` touches. -/
structure ThreadRec where
  kt_state : TState
  kt_cancelled : Bool
  kt_wchan : Option Nat
  deriving Repr, DecidableEq

instance : Inhabited ThreadRec := ⟨⟨.noState, false, none⟩⟩

/-- A `ktqueue_t`: the linked list (head of the Lean list = list head,
where `list_insert_head` inserts; the last element = tail, where
`ktqueue_dequeue` removes) and the `tq_size` counter. -/
structure QueueRec where
  tq_list : List Nat
  tq_size : Nat
  deriving Repr, DecidableEq

instance : Inhabited QueueRec := ⟨⟨[], 0⟩⟩

/-- The scheduler state: all threads, all queues (including the run
queue), and the current thread `curthr`. -/
structure SchedState where
  threads : List ThreadRec
  queues : List QueueRec
  curthr : Nat
  deriving Repr, DecidableEq

/-- The id of the static run queue `kt_runq`. -/
def runqId : Nat := 0

def kthread (st : SchedState) (t : Nat) : ThreadRec := st.threads.getD t default

def ktq (st : SchedState) (q : Nat) : QueueRec := st.queues.getD q default

def setThread (st : SchedState) (t : Nat) (f : ThreadRec → ThreadRec) : SchedState :=
  { st with threads := st.threads.set t (f (kthread st t)) }

def setQueue (st : SchedState) (q : Nat) (f : QueueRec → QueueRec) : SchedState :=
  { st with queues := st.queues.set q (f (ktq st q)) }

/-- `ktqueue_enqueue(q, thr)`: `KASSERT(!thr->kt_wchan)`;
`list_insert_head`; set `kt_wchan`; bump `tq_size`. -/
def ktqueue_enqueue (st : SchedState) (q t : Nat) : Option SchedState :=
  if (kthread st t).kt_wchan ≠ none then
    none  -- KASSERT(!thr->kt_wchan)
  else
    let st1 := setQueue st q (fun qu =>
      { qu with tq_list := t :: qu.tq_list, tq_size := qu.tq_size + 1 })
    some (setThread st1 t (fun th => { th with kt_wchan := some q }))

/-- `ktqueue_dequeue(q)`: NULL if the list is empty, else unlink the tail
(`tq_list.l_prev`), clear its `kt_wchan`, decrement `tq_size`. -/
def ktqueue_dequeue (st : SchedState) (q : Nat) : Option Nat × SchedState :=
  match (ktq st q).tq_list.getLast? with
  | none => (none, st)
  | some t =>
    let st1 := setQueue st q (fun qu =>
      { qu with tq_list := qu.tq_list.dropLast, tq_size := qu.tq_size - 1 })
    (some t, setThread st1 t (fun th => { th with kt_wchan := none }))

/-- `ktqueue_remove(q, thr)`: `KASSERT` that `thr`'s queue link is live
(i.e. the thread is linked on some queue); `list_remove` unlinks the
thread from whatever list its link is spliced into; clear `kt_wchan`;
decrement `q`'s `tq_size`. -/
def ktqueue_remove (st : SchedState) (q t : Nat) : Option SchedState :=
  if st.queues.any (fun qu => qu.tq_list.contains t) then
    let st1 := { st with queues := st.queues.map (fun qu =>
      { qu with tq_list := qu.tq_list.erase t }) }
    let st2 := setThread st1 t (fun th => { th with kt_wchan := none })
    some (setQueue st2 q (fun qu => { qu with tq_size := qu.tq_size - 1 }))
  else
    none  -- KASSERT(thr->kt_qlink.l_next && thr->kt_qlink.l_prev)

/-- `sched_queue_empty(q)`. -/
def sched_queue_empty (st : SchedState) (q : Nat) : Bool :=
  (ktq st q).tq_list.isEmpty

/-- `sched_make_runnable(thr)`: set `kt_state = KT_RUN` and enqueue on the
run queue (under IPL HIGH, not represented). -/
def sched_make_runnable (st : SchedState) (t : Nat) : Option SchedState :=
  ktqueue_enqueue (setThread st t (fun th => { th with kt_state := .run })) runqId t

/-- `sched_wakeup_on(q)`: NULL and no change if the queue is empty, else
dequeue one thread and make it runnable, returning it. -/
def sched_wakeup_on (st : SchedState) (q : Nat) : Option (Option Nat × SchedState) :=
  if sched_queue_empty st q then
    some (none, st)
  else
    let r := ktqueue_dequeue st q
    match r.1 with
    | none => some (none, r.2)  -- dead branch: the queue is non-empty
    | some t => (sched_make_runnable r.2 t).map (fun st2 => (some t, st2))

/-- The `while (!sched_queue_empty(q))` loop of `sched_broadcast_on`,
with explicit fuel; running out of fuel with a non-empty queue models a
loop that does not terminate. -/
def sched_broadcast_go (q : Nat) : Nat → SchedState → Option SchedState
  | 0, st => if sched_queue_empty st q then some st else none
  | fuel + 1, st =>
    if sched_queue_empty st q then
      some st
    else
      match sched_wakeup_on st q with
      | none => none
      | some r => sched_broadcast_go q fuel r.2

/-- `sched_broadcast_on(q)`. -/
def sched_broadcast_on (st : SchedState) (q : Nat) : Option SchedState :=
  sched_broadcast_go q (ktq st q).tq_list.length st

/-- Result of a sleep call: `immediate ret st` returns `ret` without ever
enqueuing or calling `sched_switch`; `suspended st retOnWake` is the
state at the `sched_switch()` call (the thread enqueued and the CPU about
to be given up), `retOnWake` the value the call returns after wakeup. -/
inductive SleepResult where
  | immediate (ret : Int) (st : SchedState)
  | suspended (st : SchedState) (retOnWake : Int)
  | panic
  deriving Repr, DecidableEq

/-- `sched_sleep_on(q)`: set `curthr->kt_state = KT_SLEEP`, enqueue the
current thread on `q` and switch. -/
def sched_sleep_on (st : SchedState) (q : Nat) : SleepResult :=
  let st1 := setThread st st.curthr (fun th => { th with kt_state := .sleep })
  match ktqueue_enqueue st1 q st.curthr with
  | none => .panic
  | some st2 => .suspended st2 0

/-- `sched_cancellable_sleep_on(q)`: set
`curthr->kt_state = KT_SLEEP_CANCELLABLE`; if `kt_cancelled` is already
set return `EINTR` (without enqueuing or switching, and without undoing
the state write); else enqueue on `q`, switch, and return 0 on wakeup. -/
def sched_cancellable_sleep_on (st : SchedState) (q : Nat) : SleepResult :=
  let t := st.curthr
  let st1 := setThread st t (fun th => { th with kt_state := .sleepCancellable })
  if (kthread st1 t).kt_cancelled then
    .immediate EINTR st1
  else
    match ktqueue_enqueue st1 q t with
    | none => .panic
    | some st2 => .suspended st2 0

/-- `sched_cancel(kthr)` as written in the source.  The source line
`ktqueue_dequeue(&kthr->kt_wchan, kthr);` passes two arguments to the
one-parameter `ktqueue_dequeue` and takes the address of the `kt_wchan`
field where a queue pointer is expected, so it does not type-check as C;
we embed the closest compilable reading, `ktqueue_dequeue(kthr->kt_wchan)`
(dequeue from the thread's wait channel, the extra argument dropped).
A NULL `kt_wchan` dereference is `none`. -/
def sched_cancel (st : SchedState) (t : Nat) : Option SchedState :=
  match (kthread st t).kt_state with
  | .sleepCancellable =>
    let st1 := setThread st t (fun th => { th with kt_cancelled := true })
    match (kthread st1 t).kt_wchan with
    | none => none  -- dereference of a NULL wait-channel pointer
    | some q =>
      let r := ktqueue_dequeue st1 q
      sched_make_runnable r.2 t
  | _ => some (setThread st t (fun th => { th with kt_cancelled := true }))

/-! ## TTY layer (`drivers/tty/tty.c`)

Bytes are `Nat` values; a C string is a `List Nat` (the line discipline
hands back NUL-terminated strings, so a list that simply ends models the
terminator being reached).  The driver's `provide_char` calls are
collected as the list of emitted bytes.  `block_io`/`unblock_io`
bracketing has no observable effect on these values and is not
represented. -/

/-- `tty_echo(driver, out)`: `provide_char` every byte of `out` up to the
first NUL.  Returns the bytes handed to the driver, in order. -/
def tty_echo (out : List Nat) : List Nat :=
  match out with
  | [] => []
  | c :: rest => if c = 0 then [] else c :: tty_echo rest

/-- The `for (i = 0; i < count; i++)` loop of `tty_write`: first
component is the final `i` (input bytes processed), second the bytes
echoed to the driver. -/
def tty_write_go (process_char : Nat → List Nat) : List Nat → Nat → Nat × List Nat
  | _, 0 => (0, [])
  | [], _ + 1 => (0, [])
  | c :: rest, k + 1 =>
    if c = 0 then
      (0, [])
    else
      let s := tty_echo (process_char c)
      let r := tty_write_go process_char rest k
      (r.1 + 1, s ++ r.2)

/-- `tty_write(dev, offset, buf, count)` over the line discipline's
`process_char` oracle: returns `(i, echoed)` where `i` is the return
value (the number of input bytes processed) and `echoed` the bytes
written out to the driver. -/
def tty_write (process_char : Nat → List Nat) (buf : List Nat) (count : Nat) :
    Nat × List Nat :=
  tty_write_go process_char buf count

/-! ## Theorems -/

/-- `tty_echo` hands the driver exactly the prefix of `out` before the
first NUL, one character at a time. -/
theorem tty_echo_eq_takeWhile (out : List Nat) :
    tty_echo out = out.takeWhile (fun c => c != 0) := by
  induction out with
  | nil => rfl
  | cons c rest ih =>
      by_cases hc : c = 0
      · simp [tty_echo, List.takeWhile_cons, hc]
      · have hb : (c != 0) = true := by simpa using hc
        simp [tty_echo, List.takeWhile_cons, hc, hb, ih]

theorem tty_write_go_spec (pc : Nat → List Nat) :
    ∀ (buf : List Nat) (count : Nat), count ≤ buf.length →
      tty_write_go pc buf count =
        (((buf.take count).takeWhile (fun c => c != 0)).length,
         (((buf.take count).takeWhile (fun c => c != 0)).map
           (fun c => tty_echo (pc c))).flatten) := by
  intro buf
  induction buf with
  | nil =>
      intro count hc
      have h0 : count = 0 := Nat.le_zero.mp (by simpa using hc)
      subst h0
      rfl
  | cons c rest ih =>
      intro count hc
      match count with
      | 0 => rfl
      | k + 1 =>
          by_cases hc0 : c = 0
          · simp [tty_write_go, hc0, List.takeWhile_cons]
          · have hb : (c != 0) = true := by simpa using hc0
            have hk : k ≤ rest.length := by simpa using hc
            simp [tty_write_go, hc0, List.takeWhile_cons, hb, ih k hk]

/-- C9: `tty_write` processes `buf[0..count)` in order, stopping at the
first NUL byte; every processed byte goes through the line discipline's
`process_char` and the returned string is echoed to the driver character
by character (up to its NUL); the return value is the number of input
bytes processed, which is at most `count`, not the number of output bytes
emitted. -/
theorem c9_tty_write_processes_input (pc : Nat → List Nat) (buf : List Nat)
    (count : Nat) (h : count ≤ buf.length) :
    (tty_write pc buf count).1 =
        ((buf.take count).takeWhile (fun c => c != 0)).length ∧
    (tty_write pc buf count).1 ≤ count ∧
    (tty_write pc buf count).2 =
        (((buf.take count).takeWhile (fun c => c != 0)).map
          (fun c => (pc c).takeWhile (fun c => c != 0))).flatten := by
  have hs := tty_write_go_spec pc buf count h
  refine ⟨by rw [tty_write, hs], ?_, ?_⟩
  · rw [tty_write, hs]
    calc ((buf.take count).takeWhile (fun c => c != 0)).length
        ≤ (buf.take count).length := (List.takeWhile_sublist _).length_le
      _ ≤ count := by simp [List.length_take]
  · rw [tty_write, hs]
    have he : (fun c => tty_echo (pc c)) = fun c => (pc c).takeWhile (fun c => c != 0) := by
      funext c
      exact tty_echo_eq_takeWhile (pc c)
    simp only [he]

/-- Witness for C9: writing `"hi\n\0x"` with a `\n → \r\n` expanding
discipline processes 3 input bytes (not 4 output bytes) and stops at the
NUL. -/
theorem c9_witness :
    (5 ≤ ([104, 105, 10, 0, 120] : List Nat).length) ∧
    (tty_write (fun c => if c = 10 then [13, 10] else [c])
        [104, 105, 10, 0, 120] 5).1 = 3 ∧
    (tty_write (fun c => if c = 10 then [13, 10] else [c])
        [104, 105, 10, 0, 120] 5).2 = [104, 105, 13, 10] := by
  have h := c9_tty_write_processes_input
    (fun c => if c = 10 then [13, 10] else [c]) [104, 105, 10, 0, 120] 5
    (by decide)
  exact ⟨by decide, by rw [h.1]; decide, by rw [h.2.2]; decide⟩

/-- C1: whenever no vmarea contains the faulting page, or the containing
vmarea lacks the permission matching the cause bits (READ on a non-write
fault, WRITE on a write fault, EXEC on an exec fault), `handle_pagefault`
terminates the process with exit status EFAULT, and its event trace is
empty — in particular no memory-object lookup is performed before the
exit. -/
theorem c1_pagefault_kills_on_bad_access (o : MMOracle) (m : Vmmap)
    (vaddr cause : Nat)
    (h : vmmap_lookup m (ADDR_TO_PN vaddr) = none ∨
         ∃ area, vmmap_lookup m (ADDR_TO_PN vaddr) = some area ∧
           permission_missing area cause) :
    handle_pagefault o m vaddr cause = (.exited EFAULT, []) := by
  rcases h with h | ⟨area, ha, hp⟩
  · simp only [handle_pagefault, h]
  · simp only [handle_pagefault, ha]
    by_cases h1 : cause &&& FAULT_WRITE = 0 ∧ area.vma_prot &&& PROT_READ = 0
    · rw [if_pos h1]
    · rw [if_neg h1]
      by_cases h2 : cause &&& FAULT_WRITE ≠ 0 ∧ area.vma_prot &&& PROT_WRITE = 0
      · rw [if_pos h2]
      · rw [if_neg h2]
        have h3 : cause &&& FAULT_EXEC ≠ 0 ∧ area.vma_prot &&& PROT_EXEC = 0 := by
          rcases hp with h' | h' | h'
          · exact absurd h' h1
          · exact absurd h' h2
          · exact h'
        simp only [if_pos h3]

/-- A concrete oracle used by the page-fault witnesses. -/
def oracleW : MMOracle where
  pframe_lookup := fun _ _ _ => (0, ⟨0xabc000, 77⟩)
  pframe_dirty := fun _ => 0
  pt_map := fun _ _ _ _ => 0
  pt_virt_to_phys := fun a => a + 0x1000

/-- A read-only area over pages `[10, 20)` backed by object 77 at offset 5. -/
def areaR : VMArea := ⟨10, 20, 5, PROT_READ, 77⟩

/-- Witness for C1: a write fault on the read-only area exits with EFAULT
and performs no lookup. -/
theorem c1_witness :
    handle_pagefault oracleW [areaR] (10 * PAGE_SIZE + 7) FAULT_WRITE =
      (.exited EFAULT, []) :=
  c1_pagefault_kills_on_bad_access oracleW [areaR] (10 * PAGE_SIZE + 7)
    FAULT_WRITE (Or.inr ⟨areaR, by decide, Or.inr (Or.inl ⟨by decide, by decide⟩)⟩)

theorem page_align_down_eq_pn_to_addr (vaddr : Nat) :
    PAGE_ALIGN_DOWN vaddr = PN_TO_ADDR (ADDR_TO_PN vaddr) := rfl

/-- C2: on the successful page-fault path (`area` found, permissions
pass), `handle_pagefault` asks the memory object for the frame at
object-relative index `pagenum − area.start + area.offset` with
`for_write` true exactly when the cause carries the write-fault bit; if
that lookup errors the process exits with EFAULT; otherwise the frame is
dirtied exactly when `for_write`, and the mapping for the faulting page
is installed with page-directory and page-table flags
`{present, user}` plus the write flag exactly when the fault was a
write fault. -/
theorem c2_pagefault_success_path (o : MMOracle) (m : Vmmap) (vaddr cause : Nat)
    (area : VMArea)
    (ha : vmmap_lookup m (ADDR_TO_PN vaddr) = some area)
    (hperm : ¬ permission_missing area cause)
    (hobj : area.vma_obj ≠ 0) :
    (((o.pframe_lookup area.vma_obj
          (ADDR_TO_PN vaddr - area.vma_start + area.vma_off)
          (decide (cause &&& FAULT_WRITE ≠ 0))).1 < 0 →
       handle_pagefault o m vaddr cause =
         (.exited EFAULT,
          [Event.lookup area.vma_obj
            (ADDR_TO_PN vaddr - area.vma_start + area.vma_off)
            (decide (cause &&& FAULT_WRITE ≠ 0))])) ∧
     (∀ pf : Frame,
       o.pframe_lookup area.vma_obj
          (ADDR_TO_PN vaddr - area.vma_start + area.vma_off)
          (decide (cause &&& FAULT_WRITE ≠ 0)) = (0, pf) →
       pf.pf_addr ≠ 0 →
       (cause &&& FAULT_WRITE ≠ 0 → pf.pf_obj = area.vma_obj) →
       o.pframe_dirty pf = 0 →
       o.pt_map (PN_TO_ADDR (ADDR_TO_PN vaddr)) (o.pt_virt_to_phys pf.pf_addr)
         (PD_PRESENT ||| PD_USER |||
           (if cause &&& FAULT_WRITE ≠ 0 then PD_WRITE else 0))
         (PT_PRESENT ||| PT_USER |||
           (if cause &&& FAULT_WRITE ≠ 0 then PT_WRITE else 0)) = 0 →
       handle_pagefault o m vaddr cause =
         (.ok,
          Event.lookup area.vma_obj
              (ADDR_TO_PN vaddr - area.vma_start + area.vma_off)
              (decide (cause &&& FAULT_WRITE ≠ 0)) ::
          ((if cause &&& FAULT_WRITE ≠ 0 then
              [Event.dirty pf.pf_addr pf.pf_obj] else []) ++
           [Event.ptmap (PN_TO_ADDR (ADDR_TO_PN vaddr))
             (o.pt_virt_to_phys pf.pf_addr)
             (PD_PRESENT ||| PD_USER |||
               (if cause &&& FAULT_WRITE ≠ 0 then PD_WRITE else 0))
             (PT_PRESENT ||| PT_USER |||
               (if cause &&& FAULT_WRITE ≠ 0 then PT_WRITE else 0))])))) := by
  have hn := hperm
  unfold permission_missing at hn
  push_neg at hn
  obtain ⟨hn1, hn2, hn3⟩ := hn
  have hnot1 : ¬ (cause &&& FAULT_WRITE = 0 ∧ area.vma_prot &&& PROT_READ = 0) := by
    intro ⟨x, y⟩; exact absurd y (hn1 x)
  have hnot2 : ¬ (cause &&& FAULT_WRITE ≠ 0 ∧ area.vma_prot &&& PROT_WRITE = 0) := by
    intro ⟨x, y⟩; exact absurd y (hn2 x)
  have hnot3 : ¬ (cause &&& FAULT_EXEC ≠ 0 ∧ area.vma_prot &&& PROT_EXEC = 0) := by
    intro ⟨x, y⟩; exact absurd y (hn3 x)
  constructor
  · intro herr
    simp only [handle_pagefault, ha]
    rw [if_neg hnot1, if_neg hnot2, if_neg hnot3, if_neg hobj, if_pos herr]
  · intro pf hlk haddr hpfobj hdirty hmap
    simp only [handle_pagefault, ha]
    rw [if_neg hnot1, if_neg hnot2, if_neg hnot3, if_neg hobj]
    rw [hlk]
    rw [if_neg (by simp), if_neg (by simp), if_neg haddr]
    have hpa : PAGE_ALIGN_DOWN vaddr = PN_TO_ADDR (ADDR_TO_PN vaddr) := rfl
    by_cases hfw : cause &&& FAULT_WRITE ≠ 0
    · have hfwb : decide (cause &&& FAULT_WRITE ≠ 0) = true := by
        simpa using hfw
      rw [if_pos hfw, if_pos hfw] at hmap
      rw [if_pos hfwb, if_neg (show ¬ area.vma_obj ≠ pf.pf_obj by
        simp [hpfobj hfw]), if_neg (by simpa using hdirty)]
      simp [hfwb, hfw, hpa, hmap]
    · have hfwb : decide (cause &&& FAULT_WRITE ≠ 0) = false := by
        simpa using hfw
      rw [if_neg hfw, if_neg hfw] at hmap
      simp only [Nat.or_zero] at hmap
      simp [hfwb, hfw, hpa, hmap]

/-- A writable area over pages `[10, 20)` backed by object 77 at
offset 5. -/
def areaRW : VMArea := ⟨10, 20, 5, PROT_READ ||| PROT_WRITE, 77⟩

/-- Witness for C2: a write fault on the writable area looks the frame up
at index `10 − 10 + 5 = 5` with `for_write`, dirties it, and maps the page
with the write flag set in both levels. -/
theorem c2_witness :
    handle_pagefault oracleW [areaRW] (10 * PAGE_SIZE + 7) FAULT_WRITE =
      (.ok, [Event.lookup 77 5 true, Event.dirty 0xabc000 77,
             Event.ptmap (10 * PAGE_SIZE) 0xabd000 7 7]) := by
  have h := (c2_pagefault_success_path oracleW [areaRW] (10 * PAGE_SIZE + 7)
    FAULT_WRITE areaRW (by decide) (by decide) (by decide)).2
    ⟨0xabc000, 77⟩ (by decide) (by decide) (by decide) (by decide) (by decide)
  exact h.trans (by decide)

/-- C3: for non-null `addr` with `start_brk ≤ addr < USER_MEM_HIGH` and
`addr ≠ brk`, with `area` the vmarea containing the start-brk page,
`do_brk` computes `new_end_page = page_of(addr − 1) + 1`; if
`new_end_page ≤ area.end` it shrinks the area to `new_end_page`;
otherwise it grows the area by the same assignment exactly when the page
range `[area.end, new_end_page)` is empty in the vmmap and returns
`−ENOMEM` with brk and vmmap unchanged otherwise.  On success the process
brk becomes `addr`. -/
theorem c3_do_brk_resize (p : Proc) (addr i : Nat) (area : VMArea)
    (h0 : addr ≠ 0)
    (h1 : p.p_start_brk ≤ addr)
    (h2 : addr < USER_MEM_HIGH)
    (h3 : addr ≠ p.p_brk)
    (h4 : p.p_start_brk ≤ p.p_brk)
    (h5 : vmmap_lookup_idx p.p_vmmap
            (ADDR_TO_PN (PAGE_ALIGN_DOWN p.p_start_brk)) = some i)
    (h6 : p.p_vmmap[i]? = some area) :
    (ADDR_TO_PN (addr - 1) + 1 ≤ area.vma_end →
       do_brk p addr = .ok addr { p with
         p_brk := addr,
         p_vmmap := p.p_vmmap.set i
           { area with vma_end := ADDR_TO_PN (addr - 1) + 1 } }) ∧
    (area.vma_end < ADDR_TO_PN (addr - 1) + 1 →
       (vmmap_is_range_empty p.p_vmmap area.vma_end
            (ADDR_TO_PN (addr - 1) + 1 - area.vma_end) = true →
          do_brk p addr = .ok addr { p with
            p_brk := addr,
            p_vmmap := p.p_vmmap.set i
              { area with vma_end := ADDR_TO_PN (addr - 1) + 1 } }) ∧
       (vmmap_is_range_empty p.p_vmmap area.vma_end
            (ADDR_TO_PN (addr - 1) + 1 - area.vma_end) = false →
          do_brk p addr = .err (-ENOMEM) p)) := by
  have hbase : ∀ r : BrkResult, (do_brk p addr = r ↔
      (if ADDR_TO_PN (addr - 1) < area.vma_end then
        BrkResult.ok addr { p with
          p_brk := addr,
          p_vmmap := p.p_vmmap.set i
            { area with vma_end := ADDR_TO_PN (addr - 1) + 1 } }
      else if vmmap_is_range_empty p.p_vmmap area.vma_end
          (ADDR_TO_PN (addr - 1) - area.vma_end + 1) then
        BrkResult.ok addr { p with
          p_brk := addr,
          p_vmmap := p.p_vmmap.set i
            { area with vma_end := ADDR_TO_PN (addr - 1) + 1 } }
      else BrkResult.err (-ENOMEM) p) = r) := by
    intro r
    unfold do_brk
    rw [if_neg h0, if_neg (Nat.not_lt.mpr h1), if_neg (Nat.not_le.mpr h2),
      if_neg (fun hx => h3 hx), if_neg (not_not_intro h4)]
    simp only [h5, h6]
  constructor
  · intro hle
    rw [hbase]
    rw [if_pos (Nat.lt_of_succ_le hle)]
  · intro hlt
    have hge : area.vma_end ≤ ADDR_TO_PN (addr - 1) := Nat.lt_succ_iff.mp hlt
    have hnp : ADDR_TO_PN (addr - 1) - area.vma_end + 1 =
        ADDR_TO_PN (addr - 1) + 1 - area.vma_end := by omega
    constructor
    · intro hemp
      rw [hbase]
      rw [if_neg (Nat.not_lt.mpr hge), hnp, if_pos hemp]
    · intro hemp
      rw [hbase]
      rw [if_neg (Nat.not_lt.mpr hge), hnp, if_neg (by simp [hemp])]

/-- The process state of spec scenario S5/S6: `start_brk = brk = 0x1000`,
the heap area covering page range `[1, 2)`. -/
def procS5 : Proc := ⟨0x1000, 0x1000, [⟨1, 2, 0, PROT_READ ||| PROT_WRITE, 9⟩]⟩

/-- Witness for C3 (spec scenario S5): `brk(0x3500)` grows the heap area
to pages `[1, 4)` and sets the brk to `0x3500`. -/
theorem c3_witness :
    do_brk procS5 0x3500 =
      .ok 0x3500 ⟨0x1000, 0x3500, [⟨1, 4, 0, PROT_READ ||| PROT_WRITE, 9⟩]⟩ := by
  have h := ((c3_do_brk_resize procS5 0x3500 0 ⟨1, 2, 0, PROT_READ ||| PROT_WRITE, 9⟩
    (by decide) (by decide) (by decide) (by decide) (by decide)
    (by decide) (by decide)).2 (by decide)).1 (by decide)
  exact h.trans (by decide)

/-- C4: `do_brk` with NULL returns the current brk and never fails; an
address below `start_brk` or at/above `USER_MEM_HIGH` yields `−ENOMEM`;
an address equal to the current brk is a successful no-op; and every
error return of `do_brk` is `−ENOMEM`. -/
theorem c4_do_brk_boundaries (p : Proc) (addr : Nat) :
    (do_brk p 0 = .ok p.p_brk p) ∧
    (addr ≠ 0 → addr < p.p_start_brk → do_brk p addr = .err (-ENOMEM) p) ∧
    (addr ≠ 0 → USER_MEM_HIGH ≤ addr → do_brk p addr = .err (-ENOMEM) p) ∧
    (addr ≠ 0 → p.p_start_brk ≤ addr → addr < USER_MEM_HIGH →
       addr = p.p_brk → do_brk p addr = .ok addr p) ∧
    (∀ (code : Int) (q : Proc), do_brk p addr = .err code q → code = -ENOMEM) := by
  refine ⟨?_, ?_, ?_, ?_, ?_⟩
  · unfold do_brk
    rw [if_pos rfl]
  · intro h0 hlt
    unfold do_brk
    rw [if_neg h0, if_pos hlt]
  · intro h0 hge
    unfold do_brk
    by_cases hlt : addr < p.p_start_brk
    · rw [if_neg h0, if_pos hlt]
    · rw [if_neg h0, if_neg hlt, if_pos hge]
  · intro h0 hge hlt heq
    unfold do_brk
    rw [if_neg h0, if_neg (Nat.not_lt.mpr hge), if_neg (Nat.not_le.mpr hlt),
      if_pos heq]
    subst heq
    cases p
    rfl
  · intro code q h
    simp only [do_brk] at h
    repeat' split at h
    all_goals simp_all

/-- Witness for C4: the `−ENOMEM` boundary cases and the NULL/no-op cases
at concrete inputs. -/
theorem c4_witness :
    do_brk procS5 0 = .ok 0x1000 procS5 ∧
    do_brk procS5 0x0fff = .err (-ENOMEM) procS5 ∧
    do_brk procS5 0xc0000000 = .err (-ENOMEM) procS5 ∧
    do_brk procS5 0x1000 = .ok 0x1000 procS5 :=
  ⟨(c4_do_brk_boundaries procS5 0).1,
   (c4_do_brk_boundaries procS5 0x0fff).2.1 (by decide) (by decide),
   (c4_do_brk_boundaries procS5 0xc0000000).2.2.1 (by decide) (by decide),
   (c4_do_brk_boundaries procS5 0x1000).2.2.2.1 (by decide) (by decide)
     (by decide) (by decide)⟩

/-! ### Scheduler state accessor lemmas -/

theorem kthread_setThread_self (st : SchedState) (t : Nat)
    (f : ThreadRec → ThreadRec) (h : t < st.threads.length) :
    kthread (setThread st t f) t = f (kthread st t) := by
  simp [kthread, setThread, List.getD, List.getElem?_set_self', h]

theorem kthread_setThread_other (st : SchedState) (t u : Nat)
    (f : ThreadRec → ThreadRec) (h : t ≠ u) :
    kthread (setThread st t f) u = kthread st u := by
  simp [kthread, setThread, List.getD, List.getElem?_set_ne h]

theorem kthread_setQueue (st : SchedState) (q u : Nat)
    (f : QueueRec → QueueRec) :
    kthread (setQueue st q f) u = kthread st u := rfl

theorem ktq_setThread (st : SchedState) (t q : Nat)
    (f : ThreadRec → ThreadRec) :
    ktq (setThread st t f) q = ktq st q := rfl

theorem ktq_setQueue_self (st : SchedState) (q : Nat)
    (f : QueueRec → QueueRec) (h : q < st.queues.length) :
    ktq (setQueue st q f) q = f (ktq st q) := by
  simp [ktq, setQueue, List.getD, List.getElem?_set_self', h]

theorem ktq_setQueue_other (st : SchedState) (q p : Nat)
    (f : QueueRec → QueueRec) (h : q ≠ p) :
    ktq (setQueue st q f) p = ktq st p := by
  simp [ktq, setQueue, List.getD, List.getElem?_set_ne h]

theorem setThread_threads_length (st : SchedState) (t : Nat)
    (f : ThreadRec → ThreadRec) :
    (setThread st t f).threads.length = st.threads.length := by
  simp [setThread]

theorem setThread_queues (st : SchedState) (t : Nat)
    (f : ThreadRec → ThreadRec) :
    (setThread st t f).queues = st.queues := rfl

theorem setQueue_queues_length (st : SchedState) (q : Nat)
    (f : QueueRec → QueueRec) :
    (setQueue st q f).queues.length = st.queues.length := by
  simp [setQueue]

theorem setQueue_threads (st : SchedState) (q : Nat)
    (f : QueueRec → QueueRec) :
    (setQueue st q f).threads = st.threads := rfl

/-! ### C6 and C10: cancellable sleep -/

/-- C6: if the current thread's cancelled flag is already set on entry,
`sched_cancellable_sleep_on` returns EINTR immediately — no queue is
touched, the thread is not enqueued and no switch happens; otherwise it
sets the state to sleeping-cancellable, enqueues the current thread at
the head of `q` (bumping its size), records `q` as the wait channel, and
suspends in `sched_switch`, returning 0 after wakeup. -/
theorem c6_cancellable_sleep_on (st : SchedState) (q : Nat)
    (ht : st.curthr < st.threads.length)
    (hq : q < st.queues.length) :
    ((kthread st st.curthr).kt_cancelled = true →
       ∃ st', sched_cancellable_sleep_on st q = .immediate EINTR st' ∧
         st'.queues = st.queues ∧
         (kthread st' st.curthr).kt_wchan = (kthread st st.curthr).kt_wchan) ∧
    ((kthread st st.curthr).kt_cancelled = false →
     (kthread st st.curthr).kt_wchan = none →
       ∃ st', sched_cancellable_sleep_on st q = .suspended st' 0 ∧
         (ktq st' q).tq_list = st.curthr :: (ktq st q).tq_list ∧
         (ktq st' q).tq_size = (ktq st q).tq_size + 1 ∧
         (kthread st' st.curthr).kt_state = .sleepCancellable ∧
         (kthread st' st.curthr).kt_wchan = some q) := by
  constructor
  · intro hc
    refine ⟨setThread st st.curthr
      (fun th => { th with kt_state := .sleepCancellable }), ?_, rfl, ?_⟩
    · unfold sched_cancellable_sleep_on
      rw [if_pos (by rw [kthread_setThread_self st st.curthr _ ht]; exact hc)]
    · rw [kthread_setThread_self st st.curthr _ ht]
  · intro hc hw
    unfold sched_cancellable_sleep_on ktqueue_enqueue
    rw [if_neg (by rw [kthread_setThread_self st st.curthr _ ht]; simp [hc])]
    rw [if_neg (by
      rw [kthread_setThread_self st st.curthr _ ht]
      simp [hw])]
    refine ⟨_, rfl, ?_, ?_, ?_, ?_⟩ <;>
      simp [ktq_setThread, ktq_setQueue_self, kthread_setQueue,
        kthread_setThread_self, setQueue_threads, setThread_threads_length,
        setThread_queues, hq, ht]

/-- A concrete two-queue, two-thread state for the sleep witnesses:
thread 0 (current) runnable with the cancelled flag set, queue 0 the run
queue, queue 1 an empty wait queue. -/
def stSleepW : SchedState :=
  { threads := [⟨.run, true, none⟩, ⟨.sleep, false, some 1⟩]
    queues := [⟨[], 0⟩, ⟨[1], 1⟩]
    curthr := 0 }

/-- A concrete state like `stSleepW` but with the cancelled flag clear. -/
def stSleepW2 : SchedState :=
  { threads := [⟨.run, false, none⟩, ⟨.sleep, false, some 1⟩]
    queues := [⟨[], 0⟩, ⟨[1], 1⟩]
    curthr := 0 }

/-- Witness for C6: with the flag set the call returns EINTR and queue 1
is untouched; with it clear the thread is enqueued and the call
suspends returning 0 on wakeup. -/
theorem c6_witness :
    (∃ st', sched_cancellable_sleep_on stSleepW 1 = .immediate EINTR st' ∧
       st'.queues = stSleepW.queues ∧
       (kthread st' 0).kt_wchan = (kthread stSleepW 0).kt_wchan) ∧
    (∃ st', sched_cancellable_sleep_on stSleepW2 1 = .suspended st' 0 ∧
       (ktq st' 1).tq_list = 0 :: (ktq stSleepW2 1).tq_list ∧
       (ktq st' 1).tq_size = (ktq stSleepW2 1).tq_size + 1 ∧
       (kthread st' 0).kt_state = .sleepCancellable ∧
       (kthread st' 0).kt_wchan = some 1) :=
  ⟨(c6_cancellable_sleep_on stSleepW 1 (by decide) (by decide)).1 (by decide),
   (c6_cancellable_sleep_on stSleepW2 1 (by decide) (by decide)).2
     (by decide) (by decide)⟩

/-- C10: when `sched_cancellable_sleep_on` is entered with the cancelled
flag set, it returns EINTR without enqueuing — but the `kt_state` write
to sleeping-cancellable happened before the flag check and is not undone,
so the still-running thread comes back with
`kt_state = KT_SLEEP_CANCELLABLE` instead of runnable. -/
theorem c10_cancellable_sleep_state_leak (st : SchedState) (q : Nat)
    (ht : st.curthr < st.threads.length)
    (hc : (kthread st st.curthr).kt_cancelled = true) :
    ∃ st', sched_cancellable_sleep_on st q = .immediate EINTR st' ∧
      (kthread st' st.curthr).kt_state = .sleepCancellable ∧
      st'.queues = st.queues ∧
      (kthread st' st.curthr).kt_wchan = (kthread st st.curthr).kt_wchan := by
  refine ⟨setThread st st.curthr
    (fun th => { th with kt_state := .sleepCancellable }), ?_, ?_, rfl, ?_⟩
  · unfold sched_cancellable_sleep_on
    rw [if_pos (by rw [kthread_setThread_self st st.curthr _ ht]; exact hc)]
  · rw [kthread_setThread_self st st.curthr _ ht]
  · rw [kthread_setThread_self st st.curthr _ ht]

/-- Witness for C10: at the concrete state the call returns EINTR with the
current thread left in the sleeping-cancellable state. -/
theorem c10_witness :
    ∃ st', sched_cancellable_sleep_on stSleepW 1 = .immediate EINTR st' ∧
      (kthread st' 0).kt_state = .sleepCancellable ∧
      st'.queues = stSleepW.queues ∧
      (kthread st' 0).kt_wchan = (kthread stSleepW 0).kt_wchan :=
  c10_cancellable_sleep_state_leak stSleepW 1 (by decide) (by decide)

/-! ### C5: `sched_cancel` -/

/-- Thread 2 sleeping cancellably on queue 1 together with thread 1
(thread 1 was enqueued first, so it sits at the tail); thread 0 is the
running thread and queue 0 is the run queue. -/
def stCancelBug : SchedState :=
  { threads := [⟨.run, false, none⟩,
                ⟨.sleepCancellable, false, some 1⟩,
                ⟨.sleepCancellable, false, some 1⟩]
    queues := [⟨[], 0⟩, ⟨[2, 1], 2⟩]
    curthr := 0 }

/-- C5 (code bug): cancelling thread 2 — sleeping cancellably on queue 1
but not at its tail — does not remove thread 2 from its wait channel and
make it runnable as the claim (and the comment above `sched_cancel`)
states.  The dequeue the source performs on the wait channel removes the
tail thread 1 instead, and the subsequent `sched_make_runnable(kthr)`
trips `KASSERT(!thr->kt_wchan)` because thread 2 is still linked on
queue 1, so the operation aborts. -/
theorem c5_sched_cancel_bug :
    (kthread stCancelBug 2).kt_state = .sleepCancellable ∧
    (kthread stCancelBug 2).kt_wchan = some 1 ∧
    2 ∈ (ktq stCancelBug 1).tq_list ∧
    (ktqueue_dequeue (setThread stCancelBug 2
        (fun th => { th with kt_cancelled := true })) 1).1 = some 1 ∧
    sched_cancel stCancelBug 2 = none := by decide

/-! ### C7: wakeup and broadcast -/

theorem ktqueue_enqueue_eq (st : SchedState) (q t : Nat)
    (h : (kthread st t).kt_wchan = none) :
    ktqueue_enqueue st q t = some (setThread
      (setQueue st q (fun qu =>
        { qu with tq_list := t :: qu.tq_list, tq_size := qu.tq_size + 1 }))
      t (fun th => { th with kt_wchan := some q })) := by
  unfold ktqueue_enqueue
  rw [if_neg (by simp [h])]

theorem ktqueue_dequeue_eq_concat (st : SchedState) (q t : Nat) (l : List Nat)
    (hl : (ktq st q).tq_list = l ++ [t]) :
    ktqueue_dequeue st q = (some t, setThread
      (setQueue st q (fun qu =>
        { qu with tq_list := qu.tq_list.dropLast, tq_size := qu.tq_size - 1 }))
      t (fun th => { th with kt_wchan := none })) := by
  unfold ktqueue_dequeue
  rw [hl, List.getLast?_concat]

/-- What one `sched_wakeup_on` call does to a non-empty wait queue
`q ≠` run queue: the tail thread `t` is unlinked from `q`, made runnable,
and pushed at the head of the run queue; nothing else changes. -/
theorem sched_wakeup_on_concat (st : SchedState) (q t : Nat) (l : List Nat)
    (hq : q < st.queues.length) (h0 : runqId < st.queues.length)
    (hne : q ≠ runqId)
    (hl : (ktq st q).tq_list = l ++ [t])
    (ht : t < st.threads.length) :
    ∃ st', sched_wakeup_on st q = some (some t, st') ∧
      (ktq st' q).tq_list = l ∧
      (ktq st' q).tq_size = (ktq st q).tq_size - 1 ∧
      (kthread st' t).kt_state = .run ∧
      (kthread st' t).kt_wchan = some runqId ∧
      (ktq st' runqId).tq_list = t :: (ktq st runqId).tq_list ∧
      (ktq st' runqId).tq_size = (ktq st runqId).tq_size + 1 ∧
      (∀ u, u ≠ t → kthread st' u = kthread st u) ∧
      (∀ p, p ≠ q → p ≠ runqId → ktq st' p = ktq st p) ∧
      st'.threads.length = st.threads.length ∧
      st'.queues.length = st.queues.length := by
  have hemp : sched_queue_empty st q = false := by
    simp [sched_queue_empty, hl]
  have hd := ktqueue_dequeue_eq_concat st q t l hl
  -- the state after the dequeue
  set stD := setThread
    (setQueue st q (fun qu =>
      { qu with tq_list := qu.tq_list.dropLast, tq_size := qu.tq_size - 1 }))
    t (fun th => { th with kt_wchan := none }) with hstD
  have htD : t < stD.threads.length := by
    simpa [hstD, setThread_threads_length, setQueue_threads] using ht
  have hwD : (kthread stD t).kt_wchan = none := by
    rw [hstD, kthread_setThread_self _ _ _ (by
      simpa [setQueue_threads] using ht)]
  -- the state after make_runnable's kt_state write
  set stE := setThread stD t (fun th => { th with kt_state := TState.run })
    with hstE
  have hwE : (kthread stE t).kt_wchan = none := by
    rw [hstE, kthread_setThread_self _ _ _ htD, hwD]
  set stG := setThread
    (setQueue stE runqId (fun qu =>
      { qu with tq_list := t :: qu.tq_list, tq_size := qu.tq_size + 1 }))
    t (fun th => { th with kt_wchan := some runqId }) with hstG
  have hmr : sched_make_runnable stD t = some stG := by
    unfold sched_make_runnable
    rw [← hstE, ktqueue_enqueue_eq _ _ _ hwE, hstG]
  refine ⟨stG, ?_, ?_, ?_, ?_, ?_, ?_, ?_, ?_, ?_, ?_, ?_⟩
  · unfold sched_wakeup_on
    rw [if_neg (by simp [hemp]), hd]
    simp only [hmr]
    rfl
  · rw [hstG, ktq_setThread, ktq_setQueue_other _ _ _ _ (fun e => hne e.symm),
      hstE, ktq_setThread, hstD, ktq_setThread,
      ktq_setQueue_self _ _ _ hq, hl, List.dropLast_concat]
  · rw [hstG, ktq_setThread, ktq_setQueue_other _ _ _ _ (fun e => hne e.symm),
      hstE, ktq_setThread, hstD, ktq_setThread,
      ktq_setQueue_self _ _ _ hq]
  · rw [hstG, kthread_setThread_self _ _ _ (by
      simpa [setQueue_threads, hstE, setThread_threads_length, hstD] using ht)]
    rw [kthread_setQueue, hstE, kthread_setThread_self _ _ _ htD]
  · rw [hstG, kthread_setThread_self _ _ _ (by
      simpa [setQueue_threads, hstE, setThread_threads_length, hstD] using ht)]
  · rw [hstG, ktq_setThread, ktq_setQueue_self _ _ _ (by
      simpa [hstE, setThread_queues, hstD, setQueue_queues_length] using h0)]
    rw [hstE, ktq_setThread, hstD, ktq_setThread,
      ktq_setQueue_other _ _ _ _ hne]
  · rw [hstG, ktq_setThread, ktq_setQueue_self _ _ _ (by
      simpa [hstE, setThread_queues, hstD, setQueue_queues_length] using h0)]
    rw [hstE, ktq_setThread, hstD, ktq_setThread,
      ktq_setQueue_other _ _ _ _ hne]
  · intro u hu
    rw [hstG, kthread_setThread_other _ _ _ _ (fun e => hu e.symm), kthread_setQueue,
      hstE, kthread_setThread_other _ _ _ _ (fun e => hu e.symm),
      hstD, kthread_setThread_other _ _ _ _ (fun e => hu e.symm), kthread_setQueue]
  · intro p hpq hpr
    rw [hstG, ktq_setThread, ktq_setQueue_other _ _ _ _ (fun e => hpr e.symm),
      hstE, ktq_setThread, hstD, ktq_setThread,
      ktq_setQueue_other _ _ _ _ (fun e => hpq e.symm)]
  · simp [hstG, hstE, hstD, setThread_threads_length, setQueue_threads]
  · simp [hstG, hstE, hstD, setThread_queues, setQueue_queues_length]

/-- The `while` loop of `sched_broadcast_on`, run with enough fuel on a
wait queue other than the run queue, empties the queue, makes every
thread that was on it runnable with the run queue as its wait channel,
and prepends the queue's list to the run queue, leaving everything else
unchanged. -/
theorem sched_broadcast_go_spec (q : Nat) :
    ∀ (n : Nat) (st : SchedState),
      (ktq st q).tq_list.length ≤ n →
      q < st.queues.length → runqId < st.queues.length → q ≠ runqId →
      (∀ u ∈ (ktq st q).tq_list, u < st.threads.length) →
      ∃ st', sched_broadcast_go q n st = some st' ∧
        (ktq st' q).tq_list = [] ∧
        (ktq st' runqId).tq_list =
          (ktq st q).tq_list ++ (ktq st runqId).tq_list ∧
        (∀ u ∈ (ktq st q).tq_list, (kthread st' u).kt_state = .run ∧
           (kthread st' u).kt_wchan = some runqId) ∧
        (∀ u, u ∉ (ktq st q).tq_list → kthread st' u = kthread st u) ∧
        (∀ p, p ≠ q → p ≠ runqId → ktq st' p = ktq st p) ∧
        st'.threads.length = st.threads.length ∧
        st'.queues.length = st.queues.length := by
  intro n
  induction n with
  | zero =>
      intro st hlen hq h0 hne hb
      have hnil : (ktq st q).tq_list = [] :=
        List.eq_nil_of_length_eq_zero (Nat.le_zero.mp hlen)
      refine ⟨st, ?_, hnil, by simp [hnil], by simp [hnil],
        fun u _ => rfl, fun p _ _ => rfl, rfl, rfl⟩
      simp [sched_broadcast_go, sched_queue_empty, hnil]
  | succ n ih =>
      intro st hlen hq h0 hne hb
      rcases List.eq_nil_or_concat (ktq st q).tq_list with hnil | ⟨l, t, hl⟩
      · refine ⟨st, ?_, hnil, by simp [hnil], by simp [hnil],
          fun u _ => rfl, fun p _ _ => rfl, rfl, rfl⟩
        simp [sched_broadcast_go, sched_queue_empty, hnil]
      · rw [List.concat_eq_append] at hl
        have ht : t < st.threads.length := hb t (by simp [hl])
        obtain ⟨st1, hw, hq1, _, hts, htw, hrq1, _, hfr, hfq, hlt, hlq⟩ :=
          sched_wakeup_on_concat st q t l hq h0 hne hl ht
        have hlen1 : (ktq st1 q).tq_list.length ≤ n := by
          rw [hq1]
          have : (l ++ [t]).length ≤ n + 1 := hl ▸ hlen
          simpa using this
        have hb1 : ∀ u ∈ (ktq st1 q).tq_list, u < st1.threads.length := by
          intro u hu
          rw [hlt]
          exact hb u (by rw [hl]; exact List.mem_append_left _ (hq1 ▸ hu))
        obtain ⟨st2, hgo, h2nil, h2rq, h2run, h2fr, h2fq, h2lt, h2lq⟩ :=
          ih st1 hlen1 (hlq ▸ hq) (hlq ▸ h0) hne hb1
        refine ⟨st2, ?_, h2nil, ?_, ?_, ?_, ?_, by rw [h2lt, hlt],
          by rw [h2lq, hlq]⟩
        · show sched_broadcast_go q (n + 1) st = some st2
          unfold sched_broadcast_go
          rw [if_neg (by simp [sched_queue_empty, hl]), hw]
          exact hgo
        · rw [h2rq, hq1, hrq1, hl]
          simp
        · intro u hu
          rw [hl] at hu
          rcases List.mem_append.mp hu with hul | hut
          · by_cases huq1 : u ∈ (ktq st1 q).tq_list
            · exact h2run u huq1
            · rw [h2fr u huq1]
              by_cases hut' : u = t
              · subst hut'
                exact ⟨hts, htw⟩
              · rw [hq1] at huq1
                exact absurd hul huq1
          · have hut' : u = t := by simpa using hut
            subst hut'
            by_cases huq1 : u ∈ (ktq st1 q).tq_list
            · exact h2run u huq1
            · rw [h2fr u huq1]
              exact ⟨hts, htw⟩
        · intro u hu
          rw [hl] at hu
          have hul : u ∉ l := fun hx => hu (List.mem_append_left _ hx)
          have hut : u ≠ t := fun hx => hu (by simp [hx])
          rw [h2fr u (by rw [hq1]; exact hul), hfr u hut]
        · intro p hpq hpr
          rw [h2fq p hpq hpr, hfq p hpq hpr]

/-- C7: `sched_wakeup_on` on an empty queue returns NULL and changes
nothing; on a non-empty queue it dequeues exactly the tail thread (the
least recently enqueued one, since enqueue inserts at the head), makes it
runnable, pushes it on the run queue and returns it.
`sched_broadcast_on` wakes every thread of the queue: it empties the
queue and the run queue becomes the queue's list prepended to the old run
queue, so — the run queue being served from its tail — the woken threads
run in FIFO order of their original enqueueing. -/
theorem c7_wakeup_broadcast_fifo (st : SchedState) (q : Nat)
    (hq : q < st.queues.length) (h0 : runqId < st.queues.length)
    (hne : q ≠ runqId)
    (hb : ∀ u ∈ (ktq st q).tq_list, u < st.threads.length) :
    ((ktq st q).tq_list = [] → sched_wakeup_on st q = some (none, st)) ∧
    (∀ l t, (ktq st q).tq_list = l ++ [t] →
       ∃ st', sched_wakeup_on st q = some (some t, st') ∧
         (ktq st' q).tq_list = l ∧
         (kthread st' t).kt_state = .run ∧
         (kthread st' t).kt_wchan = some runqId ∧
         (ktq st' runqId).tq_list = t :: (ktq st runqId).tq_list ∧
         (∀ u, u ≠ t → kthread st' u = kthread st u)) ∧
    (∃ st', sched_broadcast_on st q = some st' ∧
       (ktq st' q).tq_list = [] ∧
       (ktq st' runqId).tq_list =
         (ktq st q).tq_list ++ (ktq st runqId).tq_list ∧
       ∀ u ∈ (ktq st q).tq_list, (kthread st' u).kt_state = .run ∧
         (kthread st' u).kt_wchan = some runqId) := by
  refine ⟨?_, ?_, ?_⟩
  · intro hnil
    unfold sched_wakeup_on
    rw [if_pos (by simp [sched_queue_empty, hnil])]
  · intro l t hl
    obtain ⟨st', hw, h1, _, h3, h4, h5, _, hfr, _⟩ :=
      sched_wakeup_on_concat st q t l hq h0 hne hl (hb t (by simp [hl]))
    exact ⟨st', hw, h1, h3, h4, h5, hfr⟩
  · obtain ⟨st', hgo, h1, h2, h3, _⟩ :=
      sched_broadcast_go_spec q (ktq st q).tq_list.length st le_rfl hq h0 hne hb
    exact ⟨st', hgo, h1, h2, h3⟩

/-- Scheduler state for the C7 witness: threads 1 and 2 asleep on wait
queue 1 (thread 1 enqueued first), thread 0 running. -/
def stFifoW : SchedState :=
  { threads := [⟨.run, false, none⟩, ⟨.sleep, false, some 1⟩,
                ⟨.sleep, false, some 1⟩]
    queues := [⟨[], 0⟩, ⟨[2, 1], 2⟩]
    curthr := 0 }

/-- Witness for C7: waking queue 1 returns the tail thread 1 (the one
enqueued first); broadcasting empties the queue onto the run queue in
order. -/
theorem c7_witness :
    (∃ st', sched_wakeup_on stFifoW 1 = some (some 1, st') ∧
       (ktq st' 1).tq_list = [2] ∧
       (kthread st' 1).kt_state = .run ∧
       (kthread st' 1).kt_wchan = some runqId ∧
       (ktq st' runqId).tq_list = 1 :: (ktq stFifoW runqId).tq_list ∧
       (∀ u, u ≠ 1 → kthread st' u = kthread stFifoW u)) ∧
    (∃ st', sched_broadcast_on stFifoW 1 = some st' ∧
       (ktq st' 1).tq_list = [] ∧
       (ktq st' runqId).tq_list =
         (ktq stFifoW 1).tq_list ++ (ktq stFifoW runqId).tq_list ∧
       ∀ u ∈ (ktq stFifoW 1).tq_list, (kthread st' u).kt_state = .run ∧
         (kthread st' u).kt_wchan = some runqId) :=
  ⟨(c7_wakeup_broadcast_fifo stFifoW 1 (by decide) (by decide) (by decide)
      (by decide)).2.1 [2] 1 (by decide),
   (c7_wakeup_broadcast_fifo stFifoW 1 (by decide) (by decide) (by decide)
      (by decide)).2.2⟩

/-! ### C8: the queue invariants -/

/-- A wait-channel pointer, when non-null, refers to an existing queue. -/
def wchanInBounds (o : Option Nat) (n : Nat) : Prop :=
  match o with
  | none => True
  | some q => q < n

instance (o : Option Nat) (n : Nat) : Decidable (wchanInBounds o n) :=
  match o with
  | none => isTrue trivial
  | some q => Nat.decLt q n

/-- Structural well-formedness of a scheduler state: queue members are
existing threads, no thread is linked twice (each `kthread_t` owns a
single `kt_qlink` node, so in C a thread can be spliced into at most one
list), and wait-channel pointers refer to existing queues. -/
def SchedWF (st : SchedState) : Prop :=
  (∀ q, q < st.queues.length → ∀ u ∈ (ktq st q).tq_list,
     u < st.threads.length) ∧
  (∀ q, q < st.queues.length → (ktq st q).tq_list.Nodup) ∧
  (∀ t, t < st.threads.length →
     wchanInBounds (kthread st t).kt_wchan st.queues.length)

/-- Queue invariant 1: a thread's wait-channel pointer is `some q` iff
the thread is linked on queue `q`. -/
def WchanInv (st : SchedState) : Prop :=
  ∀ t, t < st.threads.length → ∀ q, q < st.queues.length →
    ((kthread st t).kt_wchan = some q ↔ t ∈ (ktq st q).tq_list)

/-- Queue invariant 2: every queue's `tq_size` counter equals the number
of threads linked on it. -/
def SizeInv (st : SchedState) : Prop :=
  ∀ q, q < st.queues.length → (ktq st q).tq_size = (ktq st q).tq_list.length

/-- The two claimed queue invariants together with the structural
well-formedness they ride on. -/
def SchedInv (st : SchedState) : Prop :=
  SchedWF st ∧ WchanInv st ∧ SizeInv st

instance (st : SchedState) : Decidable (SchedWF st) := by
  unfold SchedWF; infer_instance

instance (st : SchedState) : Decidable (WchanInv st) := by
  unfold WchanInv; infer_instance

instance (st : SchedState) : Decidable (SizeInv st) := by
  unfold SizeInv; infer_instance

instance (st : SchedState) : Decidable (SchedInv st) := by
  unfold SchedInv; infer_instance

theorem ktqueue_enqueue_preserves (st st' : SchedState) (q t : Nat)
    (hq : q < st.queues.length) (ht : t < st.threads.length)
    (hinv : SchedInv st)
    (h : ktqueue_enqueue st q t = some st') :
    SchedInv st' ∧ st'.threads.length = st.threads.length ∧
      st'.queues.length = st.queues.length := by
  obtain ⟨⟨hwf1, hwf2, hwf3⟩, hwc, hsz⟩ := hinv
  have hwch : (kthread st t).kt_wchan = none := by
    by_contra hne
    unfold ktqueue_enqueue at h
    rw [if_pos hne] at h
    cases h
  rw [ktqueue_enqueue_eq st q t hwch] at h
  injection h with h
  have hnotin : ∀ p, p < st.queues.length → t ∉ (ktq st p).tq_list := by
    intro p hp hmem
    have := (hwc t ht p hp).mpr hmem
    rw [hwch] at this
    cases this
  have hlen_t : st'.threads.length = st.threads.length := by
    rw [← h]; simp [setThread_threads_length, setQueue_threads]
  have hlen_q : st'.queues.length = st.queues.length := by
    rw [← h]; simp [setThread_queues, setQueue_queues_length]
  have hthread_t : kthread st' t = { kthread st t with kt_wchan := some q } := by
    rw [← h, kthread_setThread_self _ _ _ (by simpa [setQueue_threads] using ht),
      kthread_setQueue]
  have hthread_o : ∀ u, u ≠ t → kthread st' u = kthread st u := by
    intro u hu
    rw [← h, kthread_setThread_other _ _ _ _ (fun e => hu e.symm), kthread_setQueue]
  have hq_self : ktq st' q = { ktq st q with
      tq_list := t :: (ktq st q).tq_list,
      tq_size := (ktq st q).tq_size + 1 } := by
    rw [← h, ktq_setThread, ktq_setQueue_self _ _ _ hq]
  have hq_other : ∀ p, p ≠ q → ktq st' p = ktq st p := by
    intro p hp
    rw [← h, ktq_setThread, ktq_setQueue_other _ _ _ _ (fun e => hp e.symm)]
  refine ⟨⟨⟨?_, ?_, ?_⟩, ?_, ?_⟩, hlen_t, hlen_q⟩
  · intro p hp u hu
    rw [hlen_t]
    rw [hlen_q] at hp
    by_cases hpq : p = q
    · subst hpq
      rw [hq_self] at hu
      rcases List.mem_cons.mp hu with rfl | hu'
      · exact ht
      · exact hwf1 p hp u hu'
    · rw [hq_other p hpq] at hu
      exact hwf1 p hp u hu
  · intro p hp
    rw [hlen_q] at hp
    by_cases hpq : p = q
    · subst hpq
      rw [hq_self]
      exact List.Nodup.cons (hnotin p hp) (hwf2 p hp)
    · rw [hq_other p hpq]
      exact hwf2 p hp
  · intro u hu
    rw [hlen_t] at hu
    rw [hlen_q]
    by_cases hut : u = t
    · subst hut
      rw [hthread_t]
      exact hq
    · rw [hthread_o u hut]
      exact hwf3 u hu
  · intro u hu p hp
    rw [hlen_t] at hu
    rw [hlen_q] at hp
    by_cases hut : u = t
    · subst hut
      rw [hthread_t]
      by_cases hpq : p = q
      · subst hpq
        rw [hq_self]
        simp
      · rw [hq_other p hpq]
        constructor
        · intro he
          exact absurd (Option.some.inj he) (fun e => hpq e.symm)
        · intro hmem
          exact absurd hmem (hnotin p hp)
    · rw [hthread_o u hut]
      by_cases hpq : p = q
      · subst hpq
        rw [hq_self]
        constructor
        · intro he
          exact List.mem_cons_of_mem _ ((hwc u hu p hp).mp he)
        · intro hmem
          rcases List.mem_cons.mp hmem with rfl | hmem'
          · exact absurd rfl hut
          · exact (hwc u hu p hp).mpr hmem'
      · rw [hq_other p hpq]
        exact hwc u hu p hp
  · intro p hp
    rw [hlen_q] at hp
    by_cases hpq : p = q
    · subst hpq
      rw [hq_self]
      simp [hsz p hp]
    · rw [hq_other p hpq]
      exact hsz p hp

theorem ktq_mem (st : SchedState) (q : Nat) (hq : q < st.queues.length) :
    ktq st q ∈ st.queues := by
  have h1 : st.queues[q]? = some st.queues[q] := List.getElem?_eq_getElem hq
  have h2 : ktq st q = st.queues[q] := by simp [ktq, List.getD, h1]
  rw [h2]
  exact List.getElem_mem hq

theorem ktqueue_dequeue_preserves (st : SchedState) (q : Nat)
    (hq : q < st.queues.length)
    (hinv : SchedInv st) :
    SchedInv (ktqueue_dequeue st q).2 ∧
      (ktqueue_dequeue st q).2.threads.length = st.threads.length ∧
      (ktqueue_dequeue st q).2.queues.length = st.queues.length := by
  obtain ⟨⟨hwf1, hwf2, hwf3⟩, hwc, hsz⟩ := hinv
  rcases List.eq_nil_or_concat (ktq st q).tq_list with hnil | ⟨l, t, hl⟩
  · have hd : ktqueue_dequeue st q = (none, st) := by
      unfold ktqueue_dequeue
      rw [hnil]
      rfl
    rw [hd]
    exact ⟨⟨⟨hwf1, hwf2, hwf3⟩, hwc, hsz⟩, rfl, rfl⟩
  · rw [List.concat_eq_append] at hl
    have ht : t < st.threads.length := hwf1 q hq t (by simp [hl])
    have htw : (kthread st t).kt_wchan = some q := (hwc t ht q hq).mpr (by simp [hl])
    have hnd : (l ++ [t]).Nodup := hl ▸ hwf2 q hq
    have htl : t ∉ l := by
      intro hmem
      exact (List.nodup_append.mp hnd).2.2 hmem (by simp)
    have hd := ktqueue_dequeue_eq_concat st q t l hl
    rw [hd]
    set st' := setThread
      (setQueue st q (fun qu =>
        { qu with tq_list := qu.tq_list.dropLast, tq_size := qu.tq_size - 1 }))
      t (fun th => { th with kt_wchan := none }) with hst'
    have hlen_t : st'.threads.length = st.threads.length := by
      rw [hst']; simp [setThread_threads_length, setQueue_threads]
    have hlen_q : st'.queues.length = st.queues.length := by
      rw [hst']; simp [setThread_queues, setQueue_queues_length]
    have hthread_t : kthread st' t = { kthread st t with kt_wchan := none } := by
      rw [hst', kthread_setThread_self _ _ _ (by simpa [setQueue_threads] using ht),
        kthread_setQueue]
    have hthread_o : ∀ u, u ≠ t → kthread st' u = kthread st u := by
      intro u hu
      rw [hst', kthread_setThread_other _ _ _ _ (fun e => hu e.symm), kthread_setQueue]
    have hq_self : ktq st' q = { ktq st q with
        tq_list := l, tq_size := (ktq st q).tq_size - 1 } := by
      rw [hst', ktq_setThread, ktq_setQueue_self _ _ _ hq, hl, List.dropLast_concat]
    have hq_other : ∀ p, p ≠ q → ktq st' p = ktq st p := by
      intro p hp
      rw [hst', ktq_setThread, ktq_setQueue_other _ _ _ _ (fun e => hp e.symm)]
    refine ⟨⟨⟨?_, ?_, ?_⟩, ?_, ?_⟩, hlen_t, hlen_q⟩
    · intro p hp u hu
      rw [hlen_t]
      rw [hlen_q] at hp
      by_cases hpq : p = q
      · subst hpq
        rw [hq_self] at hu
        exact hwf1 p hp u (by rw [hl]; exact List.mem_append_left _ hu)
      · rw [hq_other p hpq] at hu
        exact hwf1 p hp u hu
    · intro p hp
      rw [hlen_q] at hp
      by_cases hpq : p = q
      · subst hpq
        rw [hq_self]
        exact (List.nodup_append.mp hnd).1
      · rw [hq_other p hpq]
        exact hwf2 p hp
    · intro u hu
      rw [hlen_t] at hu
      rw [hlen_q]
      by_cases hut : u = t
      · subst hut
        rw [hthread_t]
        trivial
      · rw [hthread_o u hut]
        exact hwf3 u hu
    · intro u hu p hp
      rw [hlen_t] at hu
      rw [hlen_q] at hp
      by_cases hut : u = t
      · subst hut
        rw [hthread_t]
        constructor
        · intro he
          cases he
        · intro hmem
          by_cases hpq : p = q
          · subst hpq
            rw [hq_self] at hmem
            exact absurd hmem htl
          · rw [hq_other p hpq] at hmem
            have := (hwc u hu p hp).mpr hmem
            rw [htw] at this
            exact absurd (Option.some.inj this).symm hpq
      · rw [hthread_o u hut]
        by_cases hpq : p = q
        · subst hpq
          rw [hq_self]
          constructor
          · intro he
            have := (hwc u hu p hp).mp he
            rw [hl] at this
            rcases List.mem_append.mp this with h' | h'
            · exact h'
            · exact absurd (by simpa using h') hut
          · intro hmem
            exact (hwc u hu p hp).mpr (by rw [hl]; exact List.mem_append_left _ hmem)
        · rw [hq_other p hpq]
          exact hwc u hu p hp
    · intro p hp
      rw [hlen_q] at hp
      by_cases hpq : p = q
      · subst hpq
        rw [hq_self]
        have h1 := hsz p hp
        rw [hl] at h1
        simp at h1
        simp [h1]
      · rw [hq_other p hpq]
        exact hsz p hp

theorem ktqueue_remove_preserves (st st' : SchedState) (q t : Nat)
    (hq : q < st.queues.length)
    (hmem : t ∈ (ktq st q).tq_list)
    (hinv : SchedInv st)
    (h : ktqueue_remove st q t = some st') :
    SchedInv st' ∧ st'.threads.length = st.threads.length ∧
      st'.queues.length = st.queues.length := by
  obtain ⟨⟨hwf1, hwf2, hwf3⟩, hwc, hsz⟩ := hinv
  have ht : t < st.threads.length := hwf1 q hq t hmem
  have htw : (kthread st t).kt_wchan = some q := (hwc t ht q hq).mpr hmem
  have hnotin : ∀ p, p < st.queues.length → p ≠ q → t ∉ (ktq st p).tq_list := by
    intro p hp hpq hmem'
    have := (hwc t ht p hp).mpr hmem'
    rw [htw] at this
    exact hpq (Option.some.inj this).symm
  have hgate : st.queues.any (fun qu => qu.tq_list.contains t) = true := by
    apply List.any_eq_true.mpr
    exact ⟨ktq st q, ktq_mem st q hq, by simpa using hmem⟩
  unfold ktqueue_remove at h
  rw [if_pos hgate] at h
  injection h with h
  have hlen_t : st'.threads.length = st.threads.length := by
    rw [← h]; simp [setQueue, setThread]
  have hlen_q : st'.queues.length = st.queues.length := by
    rw [← h]; simp [setQueue, setThread]
  have hmapq : ∀ p, p < st.queues.length →
      ktq { st with queues := st.queues.map (fun qu =>
        { qu with tq_list := qu.tq_list.erase t }) } p =
      { ktq st p with tq_list := (ktq st p).tq_list.erase t } := by
    intro p hp
    have h1 : st.queues[p]? = some st.queues[p] := List.getElem?_eq_getElem hp
    simp [ktq, List.getD, List.getElem?_map, h1]
  have hthread_t : kthread st' t = { kthread st t with kt_wchan := none } := by
    rw [← h, kthread_setQueue, kthread_setThread_self _ _ _ (by simpa using ht)]
    rfl
  have hthread_o : ∀ u, u ≠ t → kthread st' u = kthread st u := by
    intro u hu
    rw [← h, kthread_setQueue, kthread_setThread_other _ _ _ _ (fun e => hu e.symm)]
    rfl
  have hq_self : ktq st' q = { ktq st q with
      tq_list := (ktq st q).tq_list.erase t,
      tq_size := (ktq st q).tq_size - 1 } := by
    rw [← h, ktq_setQueue_self _ _ _ (by simpa [setThread_queues] using hq),
      ktq_setThread, hmapq q hq]
  have hq_other : ∀ p, p < st.queues.length → p ≠ q → ktq st' p = ktq st p := by
    intro p hp hpq
    rw [← h, ktq_setQueue_other _ _ _ _ (fun e => hpq e.symm), ktq_setThread,
      hmapq p hp, List.erase_of_not_mem (hnotin p hp hpq)]
  refine ⟨⟨⟨?_, ?_, ?_⟩, ?_, ?_⟩, hlen_t, hlen_q⟩
  · intro p hp u hu
    rw [hlen_t]
    rw [hlen_q] at hp
    by_cases hpq : p = q
    · subst hpq
      rw [hq_self] at hu
      exact hwf1 p hp u (List.mem_of_mem_erase hu)
    · rw [hq_other p hp hpq] at hu
      exact hwf1 p hp u hu
  · intro p hp
    rw [hlen_q] at hp
    by_cases hpq : p = q
    · subst hpq
      rw [hq_self]
      exact (hwf2 p hp).erase t
    · rw [hq_other p hp hpq]
      exact hwf2 p hp
  · intro u hu
    rw [hlen_t] at hu
    rw [hlen_q]
    by_cases hut : u = t
    · subst hut
      rw [hthread_t]
      trivial
    · rw [hthread_o u hut]
      exact hwf3 u hu
  · intro u hu p hp
    rw [hlen_t] at hu
    rw [hlen_q] at hp
    by_cases hut : u = t
    · subst hut
      rw [hthread_t]
      constructor
      · intro he
        cases he
      · intro hmem'
        by_cases hpq : p = q
        · subst hpq
          rw [hq_self] at hmem'
          exact absurd ((hwf2 p hp).mem_erase_iff.mp hmem').1 (by simp)
        · rw [hq_other p hp hpq] at hmem'
          exact absurd hmem' (hnotin p hp hpq)
    · rw [hthread_o u hut]
      by_cases hpq : p = q
      · subst hpq
        rw [hq_self]
        rw [List.mem_erase_of_ne hut]
        exact hwc u hu p hp
      · rw [hq_other p hp hpq]
        exact hwc u hu p hp
  · intro p hp
    rw [hlen_q] at hp
    by_cases hpq : p = q
    · subst hpq
      rw [hq_self]
      simp [hsz p hp, List.length_erase_of_mem hmem]
    · rw [hq_other p hp hpq]
      exact hsz p hp

/-- A `setThread` that does not touch `kt_wchan` (state or cancelled-flag
writes) preserves the invariants. -/
theorem setThread_wchan_preserves (st : SchedState) (t : Nat)
    (f : ThreadRec → ThreadRec) (hf : ∀ th, (f th).kt_wchan = th.kt_wchan)
    (hinv : SchedInv st) :
    SchedInv (setThread st t f) ∧
      (setThread st t f).threads.length = st.threads.length ∧
      (setThread st t f).queues.length = st.queues.length := by
  obtain ⟨⟨hwf1, hwf2, hwf3⟩, hwc, hsz⟩ := hinv
  have hwch : ∀ u, (kthread (setThread st t f) u).kt_wchan =
      (kthread st u).kt_wchan := by
    intro u
    by_cases hut : t = u
    · subst hut
      by_cases ht : t < st.threads.length
      · rw [kthread_setThread_self _ _ _ ht, hf]
      · have hset : st.threads.set t (f (st.threads.getD t default)) = st.threads :=
          List.set_eq_of_length_le (Nat.le_of_not_lt ht)
        simp only [kthread, setThread, hset]
    · rw [kthread_setThread_other _ _ _ _ hut]
  refine ⟨⟨⟨?_, ?_, ?_⟩, ?_, ?_⟩, by simp [setThread_threads_length], rfl⟩
  · intro p hp u hu
    rw [setThread_threads_length]
    exact hwf1 p hp u hu
  · intro p hp
    exact hwf2 p hp
  · intro u hu
    rw [setThread_threads_length] at hu
    rw [hwch u]
    exact hwf3 u hu
  · intro u hu p hp
    rw [setThread_threads_length] at hu
    rw [hwch u]
    exact hwc u hu p hp
  · intro p hp
    exact hsz p hp

theorem sched_make_runnable_preserves (st st' : SchedState) (t : Nat)
    (ht : t < st.threads.length) (h0 : runqId < st.queues.length)
    (hinv : SchedInv st)
    (h : sched_make_runnable st t = some st') :
    SchedInv st' ∧ st'.threads.length = st.threads.length ∧
      st'.queues.length = st.queues.length := by
  unfold sched_make_runnable at h
  obtain ⟨hinv1, hlt, hlq⟩ := setThread_wchan_preserves st t
    (fun th => { th with kt_state := TState.run }) (fun th => rfl) hinv
  obtain ⟨hinv2, hlt2, hlq2⟩ := ktqueue_enqueue_preserves _ st' runqId t
    (by rw [hlq]; exact h0) (by rw [hlt]; exact ht) hinv1 h
  exact ⟨hinv2, by rw [hlt2, hlt], by rw [hlq2, hlq]⟩

theorem sched_wakeup_on_preserves (st st' : SchedState) (q : Nat)
    (r : Option Nat)
    (hq : q < st.queues.length) (h0 : runqId < st.queues.length)
    (hinv : SchedInv st)
    (h : sched_wakeup_on st q = some (r, st')) :
    SchedInv st' ∧ st'.threads.length = st.threads.length ∧
      st'.queues.length = st.queues.length := by
  unfold sched_wakeup_on at h
  by_cases hemp : sched_queue_empty st q = true
  · rw [if_pos hemp] at h
    injection h with h
    injection h with h1 h2
    rw [← h2]
    exact ⟨hinv, rfl, rfl⟩
  · rw [if_neg hemp] at h
    rcases List.eq_nil_or_concat (ktq st q).tq_list with hnil | ⟨l, t, hl⟩
    · exact absurd (by simp [sched_queue_empty, hnil]) hemp
    · rw [List.concat_eq_append] at hl
      have hd := ktqueue_dequeue_eq_concat st q t l hl
      rw [hd] at h
      simp only [Option.map_eq_some'] at h
      obtain ⟨st2, hmr, heq⟩ := h
      injection heq with he1 he2
      obtain ⟨hinvD, hltD, hlqD⟩ := ktqueue_dequeue_preserves st q hq hinv
      rw [hd] at hinvD hltD hlqD
      have ht : t < st.threads.length :=
        hinv.1.1 q hq t (by simp [hl])
      obtain ⟨hinvM, hltM, hlqM⟩ := sched_make_runnable_preserves _ st2 t
        (by rw [hltD]; exact ht) (by rw [hlqD]; exact h0) hinvD hmr
      rw [← he2]
      exact ⟨hinvM, by rw [hltM, hltD], by rw [hlqM, hlqD]⟩

theorem sched_sleep_on_preserves (st st' : SchedState) (q : Nat) (r : Int)
    (hq : q < st.queues.length) (hc : st.curthr < st.threads.length)
    (hinv : SchedInv st)
    (h : sched_sleep_on st q = .suspended st' r) :
    SchedInv st' ∧ st'.threads.length = st.threads.length ∧
      st'.queues.length = st.queues.length := by
  simp only [sched_sleep_on] at h
  obtain ⟨hinv1, hlt, hlq⟩ := setThread_wchan_preserves st st.curthr
    (fun th => { th with kt_state := TState.sleep }) (fun th => rfl) hinv
  cases he : ktqueue_enqueue (setThread st st.curthr
      (fun th => { th with kt_state := TState.sleep })) q st.curthr with
  | none => simp only [he] at h; cases h
  | some st2 =>
      simp only [he] at h
      injection h with h1 h2
      obtain ⟨hinv2, hlt2, hlq2⟩ := ktqueue_enqueue_preserves _ st2 q st.curthr
        (by rw [hlq]; exact hq) (by rw [hlt]; exact hc) hinv1 he
      rw [← h1]
      exact ⟨hinv2, by rw [hlt2, hlt], by rw [hlq2, hlq]⟩

theorem sched_cancellable_sleep_on_preserves (st : SchedState) (q : Nat)
    (hq : q < st.queues.length) (hc : st.curthr < st.threads.length)
    (hinv : SchedInv st) :
    (∀ st' r, sched_cancellable_sleep_on st q = .suspended st' r →
       SchedInv st' ∧ st'.threads.length = st.threads.length ∧
         st'.queues.length = st.queues.length) ∧
    (∀ st' r, sched_cancellable_sleep_on st q = .immediate r st' →
       SchedInv st' ∧ st'.threads.length = st.threads.length ∧
         st'.queues.length = st.queues.length) := by
  obtain ⟨hinv1, hlt, hlq⟩ := setThread_wchan_preserves st st.curthr
    (fun th => { th with kt_state := TState.sleepCancellable }) (fun th => rfl) hinv
  constructor
  · intro st' r h
    simp only [sched_cancellable_sleep_on] at h
    by_cases hcf : (kthread (setThread st st.curthr
        (fun th => { th with kt_state := TState.sleepCancellable }))
          st.curthr).kt_cancelled = true
    · rw [if_pos hcf] at h
      cases h
    · rw [if_neg hcf] at h
      cases he : ktqueue_enqueue (setThread st st.curthr
          (fun th => { th with kt_state := TState.sleepCancellable })) q
          st.curthr with
      | none => simp only [he] at h; cases h
      | some st2 =>
          simp only [he] at h
          injection h with h1 h2
          obtain ⟨hinv2, hlt2, hlq2⟩ := ktqueue_enqueue_preserves _ st2 q st.curthr
            (by rw [hlq]; exact hq) (by rw [hlt]; exact hc) hinv1 he
          rw [← h1]
          exact ⟨hinv2, by rw [hlt2, hlt], by rw [hlq2, hlq]⟩
  · intro st' r h
    simp only [sched_cancellable_sleep_on] at h
    by_cases hcf : (kthread (setThread st st.curthr
        (fun th => { th with kt_state := TState.sleepCancellable }))
          st.curthr).kt_cancelled = true
    · rw [if_pos hcf] at h
      injection h with h1 h2
      rw [← h2]
      exact ⟨hinv1, hlt, hlq⟩
    · rw [if_neg hcf] at h
      cases he : ktqueue_enqueue (setThread st st.curthr
          (fun th => { th with kt_state := TState.sleepCancellable })) q
          st.curthr with
      | none => simp only [he] at h; cases h
      | some st2 => simp only [he] at h; cases h

theorem sched_cancel_preserves (st st' : SchedState) (t : Nat)
    (ht : t < st.threads.length) (h0 : runqId < st.queues.length)
    (hinv : SchedInv st)
    (h : sched_cancel st t = some st') :
    SchedInv st' ∧ st'.threads.length = st.threads.length ∧
      st'.queues.length = st.queues.length := by
  rcases hstate : (kthread st t).kt_state with _ | _ | _ | _ | _ <;>
    simp only [sched_cancel, hstate] at h
  case sleepCancellable =>
    obtain ⟨hinv1, hlt, hlq⟩ := setThread_wchan_preserves st t
      (fun th => { th with kt_cancelled := true }) (fun th => rfl) hinv
    have hwch : (kthread (setThread st t
        (fun th => { th with kt_cancelled := true })) t).kt_wchan =
        (kthread st t).kt_wchan := by
      rw [kthread_setThread_self _ _ _ ht]
    cases hw : (kthread st t).kt_wchan with
    | none =>
        simp only [hwch, hw] at h
        cases h
    | some wq =>
        simp only [hwch, hw] at h
        have hwq : wq < st.queues.length := by
          have := hinv.1.2.2 t ht
          rw [hw] at this
          exact this
        obtain ⟨hinvD, hltD, hlqD⟩ := ktqueue_dequeue_preserves _ wq
          (by rw [hlq]; exact hwq) hinv1
        obtain ⟨hinvM, hltM, hlqM⟩ := sched_make_runnable_preserves _ st' t
          (by rw [hltD, hlt]; exact ht) (by rw [hlqD, hlq]; exact h0) hinvD h
        exact ⟨hinvM, by rw [hltM, hltD, hlt], by rw [hlqM, hlqD, hlq]⟩
  all_goals
    (injection h with h
     rw [← h]
     exact setThread_wchan_preserves st t
       (fun th => { th with kt_cancelled := true }) (fun th => rfl) hinv)

theorem sched_broadcast_go_preserves (q : Nat) :
    ∀ (n : Nat) (st st' : SchedState),
      q < st.queues.length → runqId < st.queues.length →
      SchedInv st →
      sched_broadcast_go q n st = some st' →
      SchedInv st' ∧ st'.threads.length = st.threads.length ∧
        st'.queues.length = st.queues.length := by
  intro n
  induction n with
  | zero =>
      intro st st' hq h0 hinv h
      unfold sched_broadcast_go at h
      by_cases hemp : sched_queue_empty st q = true
      · rw [if_pos hemp] at h
        injection h with h
        rw [← h]
        exact ⟨hinv, rfl, rfl⟩
      · rw [if_neg hemp] at h
        cases h
  | succ n ih =>
      intro st st' hq h0 hinv h
      unfold sched_broadcast_go at h
      by_cases hemp : sched_queue_empty st q = true
      · rw [if_pos hemp] at h
        injection h with h
        rw [← h]
        exact ⟨hinv, rfl, rfl⟩
      · rw [if_neg hemp] at h
        cases hw : sched_wakeup_on st q with
        | none => rw [hw] at h; cases h
        | some r =>
            rw [hw] at h
            obtain ⟨hinv1, hlt1, hlq1⟩ := sched_wakeup_on_preserves st r.2 q r.1
              hq h0 hinv (by rw [hw])
            obtain ⟨hinv2, hlt2, hlq2⟩ := ih r.2 st'
              (by rw [hlq1]; exact hq) (by rw [hlq1]; exact h0) hinv1 h
            exact ⟨hinv2, by rw [hlt2, hlt1], by rw [hlq2, hlq1]⟩

theorem sched_broadcast_on_preserves (st st' : SchedState) (q : Nat)
    (hq : q < st.queues.length) (h0 : runqId < st.queues.length)
    (hinv : SchedInv st)
    (h : sched_broadcast_on st q = some st') :
    SchedInv st' ∧ st'.threads.length = st.threads.length ∧
      st'.queues.length = st.queues.length := by
  unfold sched_broadcast_on at h
  exact sched_broadcast_go_preserves q _ st st' hq h0 hinv h

/-- C8: every scheduler operation — enqueue, dequeue, remove, sleep_on,
cancellable_sleep_on (both its suspending and its EINTR path), wakeup_on,
broadcast_on, cancel and make_runnable — preserves the two queue
invariants: a thread's wait-channel pointer is `some q` exactly when the
thread is linked on queue `q`, and every queue's `tq_size` equals the
number of threads linked on it (`SchedInv` bundles the two with the
structural well-formedness of the representation: queue members exist, a
thread is linked at most once — it owns a single link node — and
wait-channel pointers denote existing queues).  Operations that can only
end in a `KASSERT` failure on the given arguments preserve the invariants
vacuously, since `KASSERT` halts the kernel. -/
theorem c8_operations_preserve_invariants (st : SchedState)
    (hinv : SchedInv st) :
    (∀ q t st', q < st.queues.length → t < st.threads.length →
       ktqueue_enqueue st q t = some st' → SchedInv st') ∧
    (∀ q, q < st.queues.length → SchedInv (ktqueue_dequeue st q).2) ∧
    (∀ q t st', q < st.queues.length → t ∈ (ktq st q).tq_list →
       ktqueue_remove st q t = some st' → SchedInv st') ∧
    (∀ q st' r, q < st.queues.length → st.curthr < st.threads.length →
       sched_sleep_on st q = .suspended st' r → SchedInv st') ∧
    (∀ q st' r, q < st.queues.length → st.curthr < st.threads.length →
       sched_cancellable_sleep_on st q = .suspended st' r → SchedInv st') ∧
    (∀ q st' r, q < st.queues.length → st.curthr < st.threads.length →
       sched_cancellable_sleep_on st q = .immediate r st' → SchedInv st') ∧
    (∀ q r st', q < st.queues.length → runqId < st.queues.length →
       sched_wakeup_on st q = some (r, st') → SchedInv st') ∧
    (∀ q st', q < st.queues.length → runqId < st.queues.length →
       sched_broadcast_on st q = some st' → SchedInv st') ∧
    (∀ t st', t < st.threads.length → runqId < st.queues.length →
       sched_cancel st t = some st' → SchedInv st') ∧
    (∀ t st', t < st.threads.length → runqId < st.queues.length →
       sched_make_runnable st t = some st' → SchedInv st') := by
  refine ⟨?_, ?_, ?_, ?_, ?_, ?_, ?_, ?_, ?_, ?_⟩
  · intro q t st' hq ht h
    exact (ktqueue_enqueue_preserves st st' q t hq ht hinv h).1
  · intro q hq
    exact (ktqueue_dequeue_preserves st q hq hinv).1
  · intro q t st' hq hm h
    exact (ktqueue_remove_preserves st st' q t hq hm hinv h).1
  · intro q st' r hq hc h
    exact (sched_sleep_on_preserves st st' q r hq hc hinv h).1
  · intro q st' r hq hc h
    exact ((sched_cancellable_sleep_on_preserves st q hq hc hinv).1 st' r h).1
  · intro q st' r hq hc h
    exact ((sched_cancellable_sleep_on_preserves st q hq hc hinv).2 st' r h).1
  · intro q r st' hq h0 h
    exact (sched_wakeup_on_preserves st st' q r hq h0 hinv h).1
  · intro q st' hq h0 h
    exact (sched_broadcast_on_preserves st st' q hq h0 hinv h).1
  · intro t st' ht h0 h
    exact (sched_cancel_preserves st st' t ht h0 hinv h).1
  · intro t st' ht h0 h
    exact (sched_make_runnable_preserves st st' t ht h0 hinv h).1

/-- Witness for C8: the concrete state `stFifoW` satisfies the
invariants, and they still hold after a dequeue from wait queue 1, after
enqueuing the running thread 0 on the run queue, and after broadcasting
wait queue 1. -/
theorem c8_witness :
    SchedInv stFifoW ∧
    SchedInv (ktqueue_dequeue stFifoW 1).2 ∧
    SchedInv ⟨[⟨.run, false, some 0⟩, ⟨.sleep, false, some 1⟩,
               ⟨.sleep, false, some 1⟩],
              [⟨[0], 1⟩, ⟨[2, 1], 2⟩], 0⟩ :=
  ⟨by decide,
   (c8_operations_preserve_invariants stFifoW (by decide)).2.1 1 (by decide),
   (c8_operations_preserve_invariants stFifoW (by decide)).1 0 0
     ⟨[⟨.run, false, some 0⟩, ⟨.sleep, false, some 1⟩, ⟨.sleep, false, some 1⟩],
      [⟨[0], 1⟩, ⟨[2, 1], 2⟩], 0⟩ (by decide) (by decide) (by decide)⟩

end Weenix
